import Mathlib

/-!
Verification of the music-synthesis engine (honors1: basic sine variant,
honors2: additive-decay variant) against its natural-language specification.

The Python sources are shallowly embedded: durations, tempos and start times
are exact rationals (all such quantities in the program are rational), sample
values are exact reals, and numpy arrays become lists of reals.  A numpy
slice assignment `a[s:s+k] = xs` broadcasts the source into the clipped
target slice: a source of size 0 or 1 broadcasts into any slice (even an
empty out-of-range one) without error, while a source of size 2 or more
raises a broadcast `ValueError` unless the slice has exactly `k` cells, so
slice assignment is embedded as an `Option`-valued operation.
-/

set_option maxHeartbeats 1000000

namespace Music

/-- Sample rate constant `SAMPLERATE = 44100` shared by both engines. -/
def SAMPLERATE : ℕ := 44100

/-- Amplitude constant `AMPLITUDE = 4096` shared by both engines. -/
def AMPLITUDE : ℕ := 4096

/-- The fixed pitch-class table `PITCH_CLASSES` (both engines). -/
def PITCH_CLASSES : List (Char × ℕ) :=
  [('C', 0), ('c', 1), ('D', 2), ('d', 3), ('E', 4), ('F', 5), ('f', 6),
   ('G', 7), ('g', 8), ('A', 9), ('a', 10), ('B', 11)]

/-- The fixed beat-fraction table `DURATION_MAP` (both engines). -/
def DURATION_MAP : List (String × ℚ) :=
  [("WN", 4), ("DHN", 3), ("DDHN", 3.5), ("HN", 2), ("HNT", 4/3),
   ("QN", 1), ("QNT", 2/3), ("DQN", 1.5), ("DDQN", 1.75), ("EN", 0.5),
   ("DEN", 0.75), ("ENT", 1/3), ("DDEN", 0.875), ("SN", 0.25),
   ("DSN", 0.375), ("SNT", 1/6), ("TN", 0.125), ("TNT", 1/12)]

/-- The fixed named-tempo table `TEMPOS` (both engines). -/
def TEMPOS : List (String × ℕ) :=
  [("Grave", 30), ("Lento", 40), ("Largo", 50), ("Adagio", 60),
   ("Adagietto", 70), ("Andante", 75), ("Moderato", 90), ("Allegretto", 100),
   ("Allegro", 120), ("Vivace", 135), ("Presto", 170), ("Prestissimo", 180)]

/-- Embedding of Python dict lookup `table[key]` returning `none` on a missing
key (a `KeyError` in Python). -/
def dictGet {α β : Type} [BEq α] (l : List (α × β)) (k : α) : Option β :=
  (l.find? (fun e => e.1 == k)).map (·.2)

/-- Number of samples allocated for a duration `d ≥ 0`:
`int(SAMPLERATE * duration)` as in both `generate_wave` methods (Python `int`
truncates, which is the floor for non-negative arguments). -/
def numSamples (d : ℚ) : ℕ := (⌊(SAMPLERATE : ℚ) * d⌋).toNat

/-- Reading a numpy buffer at index `i`, with 0 outside the buffer (used to
express elementwise facts; out-of-range reads never occur in the embedded
code paths). -/
def getZ (l : List ℝ) (i : ℕ) : ℝ := l.getD i 0

/-- Embedding of the body of `Wave.__add__` (identical in both engines):
`combined = zeros(max(len a, len b)); combined[:len a] += a;
combined[:len b] += b`, i.e. elementwise addition with zero padding. -/
def addData (x y : List ℝ) : List ℝ :=
  (List.range (max x.length y.length)).map (fun i => getZ x i + getZ y i)

/-- Embedding of the numpy slice assignment `l[s:s+len(xs)] = xs`.  The
source is broadcast to the clipped slice `[s, min(s+len(xs), len(l)))`: a
source of size 0 or 1 broadcasts into any such slice without error (a size-1
source placed at or past the end meets an empty slice and is silently
dropped; for integer bounds a size-1 slice is otherwise an exact fit), while
a source of size 2 or more fits only when `s + len(xs) ≤ len(l)` and
otherwise raises a broadcast `ValueError`, embedded as `none`.  On success
cell `i` of the result holds `xs[i-s]` when `s ≤ i < s+len(xs)` and the old
value otherwise. -/
def setSlice (l : List ℝ) (s : ℕ) (xs : List ℝ) : Option (List ℝ) :=
  if xs.length ≤ 1 ∨ s + xs.length ≤ l.length then
    some ((List.range l.length).map
      (fun i => if s ≤ i ∧ i < s + xs.length then getZ xs (i - s) else getZ l i))
  else none

/-- Time of sample `n` on the grid produced by
`np.linspace(0, duration, int(SAMPLERATE*duration), endpoint=False)`:
the step is `duration / N` with `N = int(SAMPLERATE*duration)` samples, so
sample `n` sits at `n * duration / N` (for `N = 0` the grid is empty and the
value is irrelevant; rational division by zero yields 0). -/
def tGrid (d : ℚ) (n : ℕ) : ℚ := (n : ℚ) * d / (numSamples d : ℚ)

noncomputable section

namespace H1

/-- Value of sample `n` in honors1 `Wave.generate_wave`:
`amplitude * sin(2π * frequency * t_n)`. -/
def sampleVal (amplitude frequency : ℝ) (d : ℚ) (n : ℕ) : ℝ :=
  amplitude * Real.sin (2 * Real.pi * frequency * ((tGrid d n : ℚ) : ℝ))

/-- Embedding of honors1 `Wave.generate_wave`. -/
def generateWave (amplitude frequency : ℝ) (d : ℚ) : List ℝ :=
  (List.range (numSamples d)).map (sampleVal amplitude frequency d)

/-- Embedding of the honors1 `Wave` object (fields set by `Wave.__init__`). -/
structure Wave where
  frequency : ℝ
  duration : ℚ
  amplitude : ℝ
  data : List ℝ

/-- Honors1 `Wave.__init__` without the `data` override: generates the wave. -/
def mkWave (frequency : ℝ) (d : ℚ) (amplitude : ℝ) : Wave :=
  ⟨frequency, d, amplitude, generateWave amplitude frequency d⟩

/-- Embedding of honors1 `Wave.__add__`: combined data, frequency and
duration of the left operand, amplitude back to the default. -/
def waveAdd (u v : Wave) : Wave :=
  ⟨u.frequency, u.duration, (AMPLITUDE : ℝ), addData u.data v.data⟩

end H1

namespace H2

/-- The fixed harmonic-weight table `OVERTONE_FACTORS` of honors2. -/
def OVERTONE_FACTORS : List ℚ := [0.36046922, 0.50991279, 0.11674297, 0.01287502]

/-- The fixed decay-coefficient table `DECAY_COEFFICIENTS` of honors2. -/
def DECAY_COEFFICIENTS : List ℚ := [0.25656511, 1.64549261]

/-- Harmonic weight `OVERTONE_FACTORS[i]` as a real number. -/
def factor (i : ℕ) : ℝ := ((OVERTONE_FACTORS.getD i 0 : ℚ) : ℝ)

/-- The honors2 envelope
`np.exp(-DECAY_COEFFICIENTS[0] - DECAY_COEFFICIENTS[1] * t)`. -/
def envelope (t : ℝ) : ℝ :=
  Real.exp (-((DECAY_COEFFICIENTS.getD 0 0 : ℚ) : ℝ) -
    ((DECAY_COEFFICIENTS.getD 1 0 : ℚ) : ℝ) * t)

/-- Value of sample `n` in honors2 `Wave.generate_wave`: the loop
`for i in range(4): wave += AMPLITUDE * envelope * OVERTONE_FACTORS[i] *
np.sin(2 * np.pi * i * frequency * t)` starting from zeros. -/
def sampleVal (frequency : ℝ) (d : ℚ) (n : ℕ) : ℝ :=
  ∑ i ∈ Finset.range 4,
    (AMPLITUDE : ℝ) * envelope ((tGrid d n : ℚ) : ℝ) * factor i *
      Real.sin (2 * Real.pi * (i : ℝ) * frequency * ((tGrid d n : ℚ) : ℝ))

/-- Embedding of honors2 `Wave.generate_wave`. -/
def generateWave (frequency : ℝ) (d : ℚ) : List ℝ :=
  (List.range (numSamples d)).map (sampleVal frequency d)

/-- Embedding of the honors2 `Wave` object. -/
structure Wave where
  frequency : ℝ
  duration : ℚ
  data : List ℝ

instance : Inhabited Wave := ⟨⟨0, 0, []⟩⟩

/-- Honors2 `Wave.__init__` without the `data` override. -/
def mkWave (frequency : ℝ) (d : ℚ) : Wave :=
  ⟨frequency, d, generateWave frequency d⟩

/-- Embedding of honors2 `Wave.__add__`: combined data, frequency the SUM of
the operand frequencies, duration of the left operand. -/
def waveAdd (u v : Wave) : Wave :=
  ⟨u.frequency + v.frequency, u.duration, addData u.data v.data⟩

end H2

end

/-- Pitch class step of a pitch character:
`PITCH_CLASSES.get(self.pitch, 0)` — dict `.get` with default 0, so an
unknown pitch silently maps to class 0 (identical in both engines). -/
def pitchStep (p : Char) : ℕ := (dictGet PITCH_CLASSES p).getD 0

/-- Embedding of `Note.calculate_frequency` (identical in both engines):
0 for a missing pitch, else `262 * 2^(step/12) * 2^(octave-4)`. -/
noncomputable def calcFrequency (pitch : Option Char) (octave : ℤ) : ℝ :=
  match pitch with
  | none => 0
  | some p => 262 * (2 : ℝ) ^ ((pitchStep p : ℝ) / 12) * (2 : ℝ) ^ (octave - 4)

/-- Embedding of `Note.calculate_duration` (identical in both engines):
`DURATION_MAP[symbol] * (60 / tempo_bpm)` in exact rational arithmetic. -/
def calcDuration (fraction : ℚ) (bpm : ℕ) : ℚ := fraction * (60 / (bpm : ℚ))

/-- Errors raised by `Note.__init__`: the dict `KeyError` on `TEMPOS[tempo]`
realises the spec's `UnknownTempo`, the `KeyError` on
`DURATION_MAP[duration_symbol]` realises `UnknownDurationSymbol`. -/
inductive NoteError
  | unknownTempo
  | unknownDurationSymbol
deriving DecidableEq

/-- Embedding of the honors1 `Note` object. -/
structure Note1 where
  pitch : Option Char
  octave : ℤ
  frequency : ℝ
  duration : ℚ
  amplitude : ℝ
  wave : H1.Wave

/-- Embedding of honors1 `Note.__init__` (with the default amplitude):
looks up `TEMPOS[tempo]` first (KeyError = `UnknownTempo`), then computes
the frequency (never fails), then `DURATION_MAP[symbol]`
(KeyError = `UnknownDurationSymbol`), then eagerly builds the wave with
amplitude `AMPLITUDE` for a pitched note and 0 for a rest. -/
noncomputable def buildNote1 (pitch : Option Char) (octave : ℤ)
    (symbol tempoName : String) : Except NoteError Note1 :=
  match dictGet TEMPOS tempoName with
  | none => .error .unknownTempo
  | some bpm =>
    let f : ℝ := match pitch with
      | none => 0
      | some _ => calcFrequency pitch octave
    match dictGet DURATION_MAP symbol with
    | none => .error .unknownDurationSymbol
    | some fraction =>
      let d := calcDuration fraction bpm
      let a : ℝ := match pitch with
        | none => 0
        | some _ => (AMPLITUDE : ℝ)
      .ok ⟨pitch, octave, f, d, a, H1.mkWave f d a⟩

/-- Embedding of the honors2 `Note` object. -/
structure Note2 where
  pitch : Option Char
  octave : ℤ
  frequency : ℝ
  duration : ℚ
  wave : H2.Wave

noncomputable instance : Inhabited Note2 := ⟨⟨none, 0, 0, 0, default⟩⟩

/-- Embedding of honors2 `Note.__init__`: same lookup order as honors1; the
wave is `Wave(0, duration)` for a rest and `Wave(frequency, duration)` for a
pitched note. -/
noncomputable def buildNote2 (pitch : Option Char) (octave : ℤ)
    (symbol tempoName : String) : Except NoteError Note2 :=
  match dictGet TEMPOS tempoName with
  | none => .error .unknownTempo
  | some bpm =>
    let f : ℝ := match pitch with
      | none => 0
      | some _ => calcFrequency pitch octave
    match dictGet DURATION_MAP symbol with
    | none => .error .unknownDurationSymbol
    | some fraction =>
      let d := calcDuration fraction bpm
      let w : H2.Wave := match pitch with
        | none => H2.mkWave 0 d
        | some _ => H2.mkWave f d
      .ok ⟨pitch, octave, f, d, w⟩

/-- Embedding of honors1 `Piano.add_note`: the piano state is its note list,
and adding appends. -/
def addNote1 (notes : List Note1) (n : Note1) : List Note1 := notes ++ [n]

/-- One iteration of the honors1 `Piano.get_combined_wave` loop: write the
note's samples at the current index (`combined[cur:cur+len] = data`), then
advance the index by the note's length. -/
def combineWaveStep (acc : List ℝ × ℕ) (n : Note1) : Option (List ℝ × ℕ) :=
  (setSlice acc.1 acc.2 n.wave.data).map (fun l => (l, acc.2 + n.wave.data.length))

/-- Embedding of honors1 `Piano.get_combined_wave`: allocate
`zeros(sum of lengths)` and write each note's samples back-to-back. -/
def getCombinedWave (notes : List Note1) : Option (List ℝ) :=
  (notes.foldlM combineWaveStep
    (List.replicate ((notes.map (fun n => n.wave.data.length)).sum) (0 : ℝ), 0)).map (·.1)

/-- Embedding of the honors2 `Piano` object: per-hand note/start lists and
running clocks. -/
structure Piano2 where
  notesLeft : List (Note2 × ℚ)
  notesRight : List (Note2 × ℚ)
  timeLeft : ℚ
  timeRight : ℚ

/-- Honors2 `Piano.__init__`. -/
def emptyPiano2 : Piano2 := ⟨[], [], 0, 0⟩

/-- Embedding of honors2 `Piano.add_note_left`: append the note at the
current left-hand clock, then advance the clock by the note's duration. -/
def addNoteLeft (p : Piano2) (n : Note2) : Piano2 :=
  { p with notesLeft := p.notesLeft ++ [(n, p.timeLeft)],
           timeLeft := p.timeLeft + n.duration }

/-- Embedding of honors2 `Piano.add_note_right`. -/
def addNoteRight (p : Piano2) (n : Note2) : Piano2 :=
  { p with notesRight := p.notesRight ++ [(n, p.timeRight)],
           timeRight := p.timeRight + n.duration }

/-- One iteration of the honors2 `Piano.combine_notes` loop for the pair
`(note, start_time)` with loop state `(final_wave, current_time)`:
add a silence wave of duration `max(0, start_time - current_time)`, build
`note_wave_extended = zeros_like(final_wave.data)` with the note's samples
written at `int(SAMPLERATE*start_time)` (numpy broadcast error = `none`;
for the non-negative start times that occur, Python's truncating `int`
equals `numSamples`), add it, and set `current_time = start_time +
note.duration`. -/
noncomputable def combineStep (acc : H2.Wave × ℚ) (e : Note2 × ℚ) :
    Option (H2.Wave × ℚ) :=
  let sd : ℚ := max 0 (e.2 - acc.2)
  let silence : H2.Wave := ⟨0, sd, List.replicate (numSamples sd) 0⟩
  let fw1 := H2.waveAdd acc.1 silence
  match setSlice (List.replicate fw1.data.length 0) (numSamples e.2) e.1.wave.data with
  | none => none
  | some ext =>
      some (H2.waveAdd fw1 ⟨e.1.frequency, e.1.duration, ext⟩, e.2 + e.1.duration)

/-- Embedding of honors2 `Piano.combine_notes` (`current_time` starts at 0). -/
noncomputable def combineNotes (fw : H2.Wave) (notes : List (Note2 × ℚ)) :
    Option H2.Wave :=
  (notes.foldlM combineStep (fw, 0)).map (·.1)

/-- Embedding of honors2 `Piano.get_combined_wave_array`: start from
`Wave(0, max_duration, zeros(int(SAMPLERATE*max_duration)))`, mix in the
left hand, then the right hand, and return the data. -/
noncomputable def getCombinedWaveArray (p : Piano2) : Option (List ℝ) :=
  let maxDur := max p.timeLeft p.timeRight
  let fw : H2.Wave := ⟨0, maxDur, List.replicate (numSamples maxDur) 0⟩
  match combineNotes fw p.notesLeft with
  | none => none
  | some w1 =>
    match combineNotes w1 p.notesRight with
    | none => none
    | some w2 => some w2.data

/-- Total duration of a honors2 note list (the clock value after adding all
of them). -/
def totalDur (ns : List Note2) : ℚ := (ns.map (fun n => n.duration)).sum

/-- Start-time bookkeeping of sequential `add_note_left`/`add_note_right`
calls: note `k` is paired with the clock value `c + d_0 + ... + d_(k-1)`. -/
def placeSeq (c : ℚ) : List Note2 → List (Note2 × ℚ)
  | [] => []
  | n :: t => (n, c) :: placeSeq (c + n.duration) t

/-- The honors2 piano obtained by adding `nsl` to the left hand and `nsr` to
the right hand of a fresh piano. -/
def pianoOf (nsl nsr : List Note2) : Piano2 :=
  nsr.foldl addNoteRight (nsl.foldl addNoteLeft emptyPiano2)

/-- The formula the specification claims for honors2 sample `n`:
`amplitude * env(t_n) * Σ_k weight[k] * sin(2π k f t_n)` with
`t_n = n / sample_rate`.  Written from the spec's words, to be compared
with the source's `H2.sampleVal` (which uses the linspace grid). -/
noncomputable def specSampleAt (f : ℝ) (n : ℕ) : ℝ :=
  (AMPLITUDE : ℝ) * H2.envelope ((n : ℝ) / (SAMPLERATE : ℝ)) *
    ∑ i ∈ Finset.range 4,
      H2.factor i * Real.sin (2 * Real.pi * (i : ℝ) * f * ((n : ℝ) / (SAMPLERATE : ℝ)))

/-- Rest (silence) note of duration `d` as honors2 `Note.__init__` builds it
for an absent pitch: frequency 0 and wave `Wave(0, d)`. -/
noncomputable def restNote (d : ℚ) : Note2 := ⟨none, 0, 0, d, H2.mkWave 0 d⟩

/-- Honors1 note with explicit wave data (a `Wave` built with the `data`
override), used to exercise the concatenation theorem. -/
def wNote1 : Note1 := ⟨none, 0, 0, 0, 0, ⟨0, 0, 0, [1, 2]⟩⟩

/-- Second such note. -/
def wNote2 : Note1 := ⟨none, 0, 0, 0, 0, ⟨0, 0, 0, [3]⟩⟩

/-- Accumulator wave of duration `1/22050` (two samples), as
`get_combined_wave_array` would allocate it. -/
noncomputable def cexBuf6 : H2.Wave := ⟨0, 1/22050, List.replicate (numSamples (1/22050)) 0⟩

lemma getZ_of_length_le {l : List ℝ} {i : ℕ} (h : l.length ≤ i) : getZ l i = 0 := by
  simp [getZ, List.getD_eq_getElem?_getD, List.getElem?_eq_none h]

lemma getZ_map_range (f : ℕ → ℝ) (n i : ℕ) :
    getZ ((List.range n).map f) i = if i < n then f i else 0 := by
  by_cases h : i < n
  · simp [getZ, List.getD_eq_getElem?_getD, List.getElem?_map, List.getElem?_range h, h]
  · rw [if_neg h]
    exact getZ_of_length_le (by simpa using Nat.le_of_not_lt h)

lemma getZ_replicate (n i : ℕ) : getZ (List.replicate n (0 : ℝ)) i = 0 := by
  by_cases h : i < n
  · simp [getZ, List.getD_eq_getElem?_getD, List.getElem?_replicate, h]
  · exact getZ_of_length_le (by simpa using Nat.le_of_not_lt h)

lemma map_getZ_range_self (l : List ℝ) :
    (List.range l.length).map (fun i => getZ l i) = l := by
  apply List.ext_getElem
  · simp
  · intro i h1 h2
    simp [getZ, List.getD_eq_getElem?_getD, List.getElem?_eq_getElem h2]

lemma length_addData (x y : List ℝ) :
    (addData x y).length = max x.length y.length := by
  simp [addData]

lemma getZ_addData (x y : List ℝ) (i : ℕ) :
    getZ (addData x y) i = getZ x i + getZ y i := by
  rw [addData, getZ_map_range]
  by_cases h : i < max x.length y.length
  · simp [h]
  · rw [if_neg h]
    rw [Nat.not_lt, Nat.max_le] at h
    rw [getZ_of_length_le h.1, getZ_of_length_le h.2, add_zero]

lemma addData_nil (x : List ℝ) : addData x [] = x := by
  have h0 : ∀ i, getZ ([] : List ℝ) i = 0 := fun i => getZ_of_length_le (by simp)
  unfold addData
  simp only [List.length_nil, Nat.max_zero]
  calc (List.range x.length).map (fun i => getZ x i + getZ [] i)
      = (List.range x.length).map (fun i => getZ x i) := by
        apply List.map_congr_left; intro i _; rw [h0 i, add_zero]
    _ = x := map_getZ_range_self x

lemma addData_comm (x y : List ℝ) : addData x y = addData y x := by
  unfold addData
  rw [Nat.max_comm]
  apply List.map_congr_left
  intro i _
  exact add_comm _ _

lemma setSlice_some (l : List ℝ) (s : ℕ) (xs : List ℝ)
    (h : xs.length ≤ 1 ∨ s + xs.length ≤ l.length) :
    setSlice l s xs = some ((List.range l.length).map
      (fun i => if s ≤ i ∧ i < s + xs.length then getZ xs (i - s) else getZ l i)) := by
  rw [setSlice, if_pos h]

lemma setSlice_none (l : List ℝ) (s : ℕ) (xs : List ℝ)
    (h1 : 2 ≤ xs.length) (h2 : l.length < s + xs.length) :
    setSlice l s xs = none := by
  rw [setSlice, if_neg]
  push_neg
  exact ⟨by omega, h2⟩

lemma setSlice_spec {l : List ℝ} {s : ℕ} {xs : List ℝ} {r : List ℝ}
    (h : setSlice l s xs = some r) :
    r.length = l.length ∧
      ∀ i, getZ r i = if s ≤ i ∧ i < s + xs.length ∧ i < l.length
        then getZ xs (i - s) else getZ l i := by
  rw [setSlice] at h
  split at h
  · cases h
    constructor
    · simp
    · intro i
      rw [getZ_map_range]
      by_cases hi : i < l.length
      · rw [if_pos hi]
        by_cases hs : s ≤ i ∧ i < s + xs.length
        · rw [if_pos hs, if_pos ⟨hs.1, hs.2, hi⟩]
        · rw [if_neg hs, if_neg (by tauto)]
      · rw [if_neg hi, if_neg (by tauto), getZ_of_length_le (Nat.le_of_not_lt hi)]
  · cases h

lemma numSamples_zero : numSamples 0 = 0 := by
  simp [numSamples]

lemma numSamples_mono {a b : ℚ} (h : a ≤ b) : numSamples a ≤ numSamples b := by
  unfold numSamples
  have hSR : (0 : ℚ) ≤ (SAMPLERATE : ℚ) := by positivity
  exact Int.toNat_le_toNat (Int.floor_le_floor (by nlinarith [hSR]))

lemma numSamples_superadd {a b : ℚ} (ha : 0 ≤ a) (hb : 0 ≤ b) :
    numSamples a + numSamples b ≤ numSamples (a + b) := by
  unfold numSamples
  have hSR : (0 : ℚ) ≤ (SAMPLERATE : ℚ) := by positivity
  have hfa : (0 : ℤ) ≤ ⌊(SAMPLERATE : ℚ) * a⌋ := Int.floor_nonneg.mpr (by positivity)
  have hfb : (0 : ℤ) ≤ ⌊(SAMPLERATE : ℚ) * b⌋ := Int.floor_nonneg.mpr (by positivity)
  have key : ⌊(SAMPLERATE : ℚ) * a⌋ + ⌊(SAMPLERATE : ℚ) * b⌋ ≤ ⌊(SAMPLERATE : ℚ) * (a + b)⌋ := by
    apply Int.le_floor.mpr
    push_cast
    have := Int.floor_le ((SAMPLERATE : ℚ) * a)
    have := Int.floor_le ((SAMPLERATE : ℚ) * b)
    nlinarith
  omega

lemma length_generateWave1 (a f : ℝ) (d : ℚ) :
    (H1.generateWave a f d).length = numSamples d := by
  simp [H1.generateWave]

lemma length_generateWave2 (f : ℝ) (d : ℚ) :
    (H2.generateWave f d).length = numSamples d := by
  simp [H2.generateWave]

lemma totalDur_nil : totalDur [] = 0 := rfl

lemma totalDur_cons (n : Note2) (t : List Note2) :
    totalDur (n :: t) = n.duration + totalDur t := by
  simp [totalDur]

lemma totalDur_nonneg {ns : List Note2} (h : ∀ n ∈ ns, 0 ≤ n.duration) :
    0 ≤ totalDur ns := by
  induction ns with
  | nil => simp [totalDur_nil]
  | cons n t ih =>
      rw [totalDur_cons]
      have := h n (by simp)
      have := ih (fun m hm => h m (by simp [hm]))
      linarith

lemma placeSeq_length (c : ℚ) (ns : List Note2) :
    (placeSeq c ns).length = ns.length := by
  induction ns generalizing c with
  | nil => rfl
  | cons n t ih => simp [placeSeq, ih]

lemma placeSeq_start (ns : List Note2) (c : ℚ) (k : ℕ) (hk : k < ns.length) :
    ((placeSeq c ns).map (fun e => e.2)).getD k 0 = c + totalDur (ns.take k) := by
  induction ns generalizing c k with
  | nil => simp at hk
  | cons n t ih =>
      cases k with
      | zero => simp [placeSeq, totalDur_nil]
      | succ k =>
          have hk' : k < t.length := by simpa using hk
          have := ih (c + n.duration) k hk'
          simp only [placeSeq, List.map_cons, List.getD_cons_succ, List.take_succ_cons,
            totalDur_cons]
          rw [this]
          ring

lemma foldl_addNoteLeft (ns : List Note2) (p : Piano2) :
    (ns.foldl addNoteLeft p).notesLeft = p.notesLeft ++ placeSeq p.timeLeft ns ∧
    (ns.foldl addNoteLeft p).timeLeft = p.timeLeft + totalDur ns ∧
    (ns.foldl addNoteLeft p).notesRight = p.notesRight ∧
    (ns.foldl addNoteLeft p).timeRight = p.timeRight := by
  induction ns generalizing p with
  | nil => simp [placeSeq, totalDur_nil]
  | cons n t ih =>
      have h := ih (addNoteLeft p n)
      refine ⟨?_, ?_, ?_, ?_⟩
      · rw [List.foldl_cons, h.1]
        simp [addNoteLeft, placeSeq]
      · rw [List.foldl_cons, h.2.1]
        simp [addNoteLeft, totalDur_cons]
        ring
      · rw [List.foldl_cons, h.2.2.1]
        simp [addNoteLeft]
      · rw [List.foldl_cons, h.2.2.2]
        simp [addNoteLeft]

lemma foldl_addNoteRight (ns : List Note2) (p : Piano2) :
    (ns.foldl addNoteRight p).notesRight = p.notesRight ++ placeSeq p.timeRight ns ∧
    (ns.foldl addNoteRight p).timeRight = p.timeRight + totalDur ns ∧
    (ns.foldl addNoteRight p).notesLeft = p.notesLeft ∧
    (ns.foldl addNoteRight p).timeLeft = p.timeLeft := by
  induction ns generalizing p with
  | nil => simp [placeSeq, totalDur_nil]
  | cons n t ih =>
      have h := ih (addNoteRight p n)
      refine ⟨?_, ?_, ?_, ?_⟩
      · rw [List.foldl_cons, h.1]
        simp [addNoteRight, placeSeq]
      · rw [List.foldl_cons, h.2.1]
        simp [addNoteRight, totalDur_cons]
        ring
      · rw [List.foldl_cons, h.2.2.1]
        simp [addNoteRight]
      · rw [List.foldl_cons, h.2.2.2]
        simp [addNoteRight]

lemma pianoOf_fields (nsl nsr : List Note2) :
    (pianoOf nsl nsr).notesLeft = placeSeq 0 nsl ∧
    (pianoOf nsl nsr).notesRight = placeSeq 0 nsr ∧
    (pianoOf nsl nsr).timeLeft = totalDur nsl ∧
    (pianoOf nsl nsr).timeRight = totalDur nsr := by
  unfold pianoOf
  have h1 := foldl_addNoteLeft nsl emptyPiano2
  have h2 := foldl_addNoteRight nsr (nsl.foldl addNoteLeft emptyPiano2)
  refine ⟨?_, ?_, ?_, ?_⟩
  · rw [h2.2.2.1, h1.1]
    simp [emptyPiano2]
  · rw [h2.1, h1.2.2.1, h1.2.2.2]
    simp [emptyPiano2]
  · rw [h2.2.2.2, h1.2.1]
    simp [emptyPiano2]
  · rw [h2.2.1, h1.2.2.2]
    simp [emptyPiano2]

lemma combineStep_aligned (fw : H2.Wave) (c : ℚ) (n : Note2)
    (hfit : n.wave.data.length ≤ 1 ∨
      numSamples c + n.wave.data.length ≤ fw.data.length) :
    ∃ (w : H2.Wave) (ext : List ℝ),
      combineStep (fw, c) (n, c) = some (w, c + n.duration) ∧
      w.data = addData fw.data ext ∧
      ext.length = fw.data.length ∧
      ∀ i, getZ ext i =
        if numSamples c ≤ i ∧ i < numSamples c + n.wave.data.length ∧ i < fw.data.length
        then getZ n.wave.data (i - numSamples c) else 0 := by
  have hrep : (List.replicate fw.data.length (0 : ℝ)).length = fw.data.length := by simp
  have hfit2 : n.wave.data.length ≤ 1 ∨
      numSamples c + n.wave.data.length ≤ (List.replicate fw.data.length (0 : ℝ)).length := by
    rw [hrep]; exact hfit
  obtain ⟨ext, hset⟩ : ∃ ext,
      setSlice (List.replicate fw.data.length (0 : ℝ)) (numSamples c) n.wave.data
        = some ext := ⟨_, setSlice_some _ _ _ hfit2⟩
  have hspec := setSlice_spec hset
  refine ⟨⟨fw.frequency + 0 + n.frequency, fw.duration, addData fw.data ext⟩,
    ext, ?_, rfl, ?_, ?_⟩
  · unfold combineStep
    simp only [sub_self, max_self, numSamples_zero, List.replicate_zero]
    have e1 : H2.waveAdd fw ⟨0, 0, []⟩ = ⟨fw.frequency + 0, fw.duration, fw.data⟩ := by
      simp only [H2.waveAdd, addData_nil]
    rw [e1]
    simp only
    rw [hset]
    rfl
  · rw [hspec.1, hrep]
  · intro i
    rw [hspec.2 i, hrep]
    by_cases h : numSamples c ≤ i ∧ i < numSamples c + n.wave.data.length ∧ i < fw.data.length
    · rw [if_pos h, if_pos h]
    · rw [if_neg h, if_neg h, getZ_replicate]

lemma combine_aux (ns : List Note2) :
    ∀ (c : ℚ) (fw : H2.Wave),
    0 ≤ c →
    (∀ n ∈ ns, 0 ≤ n.duration ∧ n.wave.data.length = numSamples n.duration) →
    numSamples (c + totalDur ns) ≤ fw.data.length →
    ∃ w : H2.Wave,
      List.foldlM combineStep (fw, c) (placeSeq c ns) = some (w, c + totalDur ns) ∧
      w.data.length = fw.data.length ∧
      ∀ i, numSamples (c + totalDur ns) ≤ i → getZ w.data i = getZ fw.data i := by
  induction ns with
  | nil =>
      intro c fw _ _ _
      refine ⟨fw, ?_, rfl, fun i _ => rfl⟩
      simp [placeSeq, totalDur_nil]
  | cons n t ih =>
      intro c fw hc hns hB
      have hd : 0 ≤ n.duration := (hns n (by simp)).1
      have hlen : n.wave.data.length = numSamples n.duration := (hns n (by simp)).2
      have ht : ∀ m ∈ t, 0 ≤ m.duration ∧ m.wave.data.length = numSamples m.duration :=
        fun m hm => hns m (by simp [hm])
      have htD : 0 ≤ totalDur t := totalDur_nonneg (fun m hm => (ht m hm).1)
      have hassoc : c + totalDur (n :: t) = (c + n.duration) + totalDur t := by
        rw [totalDur_cons]; ring
      have hcd : numSamples (c + n.duration) ≤ numSamples (c + totalDur (n :: t)) := by
        apply numSamples_mono
        rw [hassoc]
        linarith
      have hfitB : numSamples c + n.wave.data.length ≤ fw.data.length := by
        rw [hlen]
        calc numSamples c + numSamples n.duration
            ≤ numSamples (c + n.duration) := numSamples_superadd hc hd
          _ ≤ numSamples (c + totalDur (n :: t)) := hcd
          _ ≤ fw.data.length := hB
      obtain ⟨w1, ext, hstep, hwdata, hextlen, hext⟩ :=
        combineStep_aligned fw c n (Or.inr hfitB)
      have hw1len : w1.data.length = fw.data.length := by
        rw [hwdata, length_addData, hextlen, Nat.max_self]
      obtain ⟨w, hfold, hwlen, hpres⟩ := ih (c + n.duration) w1
        (by linarith) ht (by rw [← hassoc, hw1len]; exact hB)
      refine ⟨w, ?_, by rw [hwlen, hw1len], ?_⟩
      · show List.foldlM combineStep (fw, c) ((n, c) :: placeSeq (c + n.duration) t) = _
        rw [List.foldlM_cons, hstep]
        show List.foldlM combineStep (w1, c + n.duration) (placeSeq (c + n.duration) t) = _
        rw [hfold, hassoc]
      · intro i hi
        have hi2 : numSamples ((c + n.duration) + totalDur t) ≤ i := by rw [← hassoc]; exact hi
        rw [hpres i hi2, hwdata, getZ_addData]
        have : getZ ext i = 0 := by
          rw [hext i, if_neg]
          intro hcontra
          have h1 : numSamples c + n.wave.data.length ≤ numSamples (c + totalDur (n :: t)) := by
            rw [hlen]
            exact le_trans (numSamples_superadd hc hd) hcd
          omega
        rw [this, add_zero]

lemma combineNotes_placeSeq (ns : List Note2) (fw : H2.Wave)
    (hns : ∀ n ∈ ns, 0 ≤ n.duration ∧ n.wave.data.length = numSamples n.duration)
    (hB : numSamples (totalDur ns) ≤ fw.data.length) :
    ∃ w : H2.Wave,
      combineNotes fw (placeSeq 0 ns) = some w ∧
      w.data.length = fw.data.length ∧
      ∀ i, numSamples (totalDur ns) ≤ i → getZ w.data i = getZ fw.data i := by
  obtain ⟨w, hfold, hlen, hpres⟩ := combine_aux ns 0 fw le_rfl hns (by rwa [zero_add])
  refine ⟨w, ?_, hlen, fun i hi => hpres i (by rwa [zero_add])⟩
  unfold combineNotes
  rw [hfold]
  rfl

lemma render_spec (nsl nsr : List Note2)
    (hl : ∀ n ∈ nsl, 0 ≤ n.duration ∧ n.wave.data.length = numSamples n.duration)
    (hr : ∀ n ∈ nsr, 0 ≤ n.duration ∧ n.wave.data.length = numSamples n.duration) :
    ∃ w1 w2 : H2.Wave,
      combineNotes
        ⟨0, max (totalDur nsl) (totalDur nsr),
          List.replicate (numSamples (max (totalDur nsl) (totalDur nsr))) 0⟩
        (pianoOf nsl nsr).notesLeft = some w1 ∧
      combineNotes w1 (pianoOf nsl nsr).notesRight = some w2 ∧
      getCombinedWaveArray (pianoOf nsl nsr) = some w2.data ∧
      w2.data.length = numSamples (max (totalDur nsl) (totalDur nsr)) ∧
      (∀ i, numSamples (totalDur nsl) ≤ i → getZ w1.data i = 0) ∧
      (∀ i, numSamples (totalDur nsr) ≤ i → getZ w2.data i = getZ w1.data i) := by
  obtain ⟨hNL, hNR, hTL, hTR⟩ := pianoOf_fields nsl nsr
  set L := totalDur nsl with hL
  set R := totalDur nsr with hR
  set B := numSamples (max L R) with hB
  set fw0 : H2.Wave := ⟨0, max L R, List.replicate B 0⟩ with hfw0
  have hfw0len : fw0.data.length = B := by simp [hfw0]
  obtain ⟨w1, hw1, hw1len, hw1pres⟩ := combineNotes_placeSeq nsl fw0 hl
    (by rw [hfw0len]; exact numSamples_mono (le_max_left L R))
  obtain ⟨w2, hw2, hw2len, hw2pres⟩ := combineNotes_placeSeq nsr w1 hr
    (by rw [hw1len, hfw0len]; exact numSamples_mono (le_max_right L R))
  refine ⟨w1, w2, ?_, ?_, ?_, ?_, ?_, ?_⟩
  · rw [hNL]; exact hw1
  · rw [hNR]; exact hw2
  · unfold getCombinedWaveArray
    rw [hTL, hTR]
    simp only [← hL, ← hR, ← hB]
    rw [hNL, hNR]
    rw [show (⟨0, max L R, List.replicate B 0⟩ : H2.Wave) = fw0 from rfl]
    simp only [hw1, hw2]
  · rw [hw2len, hw1len, hfw0len]
  · intro i hi
    rw [hw1pres i hi]
    simp [hfw0, getZ_replicate]
  · intro i hi
    exact hw2pres i hi

lemma eq_of_getZ {x y : List ℝ} (hlen : x.length = y.length)
    (h : ∀ i, getZ x i = getZ y i) : x = y := by
  apply List.ext_getElem hlen
  intro i h1 h2
  have hi := h i
  rw [getZ, getZ, List.getD_eq_getElem?_getD, List.getD_eq_getElem?_getD,
    List.getElem?_eq_getElem h1, List.getElem?_eq_getElem h2] at hi
  simpa using hi

lemma getZ_append (x y : List ℝ) (i : ℕ) :
    getZ (x ++ y) i = if i < x.length then getZ x i else getZ y (i - x.length) := by
  simp only [getZ, List.getD_eq_getElem?_getD, List.getElem?_append]
  by_cases h : i < x.length
  · simp [h]
  · simp [h]

lemma foldCombine_pre (notes : List Note1) :
    ∀ pre : List ℝ,
    List.foldlM combineWaveStep
      (pre ++ List.replicate ((notes.map (fun n => n.wave.data.length)).sum) (0 : ℝ),
        pre.length) notes
    = some (pre ++ (notes.map (fun n => n.wave.data)).flatten,
        pre.length + (notes.map (fun n => n.wave.data.length)).sum) := by
  induction notes with
  | nil => intro pre; simp
  | cons n t ih =>
      intro pre
      set d := n.wave.data with hd
      set k := d.length with hk
      set totT := (t.map (fun m => m.wave.data.length)).sum with htotT
      have hsum : ((n :: t).map (fun m => m.wave.data.length)).sum = k + totT := by
        simp [← hd, ← hk, ← htotT]
      set buf := pre ++ List.replicate (k + totT) (0 : ℝ) with hbuf
      have hbuflen : buf.length = pre.length + (k + totT) := by simp [hbuf]
      have hfit : d.length ≤ 1 ∨ pre.length + d.length ≤ buf.length := by
        right; rw [hbuflen, ← hk]; omega
      have hset := setSlice_some _ _ _ hfit
      have hspec := setSlice_spec hset
      have hpayload : (List.range buf.length).map
          (fun i => if pre.length ≤ i ∧ i < pre.length + d.length
            then getZ d (i - pre.length) else getZ buf i)
          = (pre ++ d) ++ List.replicate totT (0 : ℝ) := by
        apply eq_of_getZ
        · rw [List.length_map, List.length_range, hbuflen]
          simp only [List.length_append, List.length_replicate, ← hk]
          omega
        · intro i
          rw [getZ_map_range]
          simp only [hbuf, getZ_append, getZ_replicate, List.length_append,
            List.length_replicate, ← hk]
          split_ifs <;> first | rfl | (exfalso; omega)
      rw [hsum]
      rw [show pre ++ List.replicate (k + totT) (0 : ℝ) = buf from rfl]
      rw [List.foldlM_cons]
      rw [show combineWaveStep (buf, pre.length) n
          = some ((pre ++ d) ++ List.replicate totT (0 : ℝ), pre.length + k) from by
        unfold combineWaveStep
        rw [← hd, hset, hpayload, ← hk]
        rfl]
      show List.foldlM combineWaveStep
        ((pre ++ d) ++ List.replicate totT (0 : ℝ), pre.length + k) t = _
      have hlen2 : pre.length + k = (pre ++ d).length := by simp [← hk]
      rw [hlen2, ih (pre ++ d)]
      simp [← hd, ← htotT, List.append_assoc]
      omega

lemma getCombinedWave_join (notes : List Note1) :
    getCombinedWave notes = some ((notes.map (fun n => n.wave.data)).flatten) := by
  unfold getCombinedWave
  have := foldCombine_pre notes []
  simp only [List.nil_append, List.length_nil] at this
  rw [this]
  rfl

lemma join_getZ (l : List (List ℝ)) :
    ∀ (k : ℕ) (hk : k < l.length) (j : ℕ),
    j < (l.get ⟨k, hk⟩).length →
    getZ l.flatten (((l.take k).map List.length).sum + j) = getZ (l.get ⟨k, hk⟩) j := by
  induction l with
  | nil => intro k hk; simp at hk
  | cons x t ih =>
      intro k hk j hj
      cases k with
      | zero =>
          simp only [List.take_zero, List.map_nil, List.sum_nil, Nat.zero_add,
            List.flatten_cons, List.get] at hj ⊢
          rw [getZ_append, if_pos hj]
      | succ k =>
          have hk' : k < t.length := by simpa using hk
          simp only [List.take_succ_cons, List.map_cons, List.sum_cons,
            List.flatten_cons, List.get] at hj ⊢
          rw [getZ_append, if_neg (by omega)]
          have harith : x.length + ((t.take k).map List.length).sum + j - x.length
              = ((t.take k).map List.length).sum + j := by omega
          rw [show x.length + ((t.take k).map List.length).sum + j
              = x.length + (((t.take k).map List.length).sum + j) from by omega]
          rw [Nat.add_sub_cancel_left]
          exact ih k hk' j hj

lemma numSamples_val (d : ℚ) (m : ℕ) (h1 : (m : ℚ) ≤ 44100 * d)
    (h2 : 44100 * d < (m : ℚ) + 1) : numSamples d = m := by
  unfold numSamples
  have hcast : ((SAMPLERATE : ℕ) : ℚ) = (44100 : ℚ) := by norm_num [SAMPLERATE]
  have : ⌊(SAMPLERATE : ℚ) * d⌋ = (m : ℤ) := by
    rw [hcast, Int.floor_eq_iff]
    exact ⟨by exact_mod_cast h1, by exact_mod_cast h2⟩
  rw [this]
  simp

lemma foldl_addNote1 (ns : List Note1) :
    ∀ init : List Note1, ns.foldl addNote1 init = init ++ ns := by
  induction ns with
  | nil => intro init; simp
  | cons n t ih =>
      intro init
      rw [List.foldl_cons, show addNote1 init n = init ++ [n] from rfl, ih]
      simp

lemma sin_pi_add (x : ℝ) : Real.sin (Real.pi + x) = -Real.sin x := by
  rw [Real.sin_add, Real.sin_pi, Real.cos_pi]
  ring

lemma sqrt_three_lt : Real.sqrt 3 < 1.8 := by
  rw [show (1.8 : ℝ) = Real.sqrt (1.8 ^ 2) from (Real.sqrt_sq (by norm_num)).symm]
  apply Real.sqrt_lt_sqrt <;> norm_num

/-- C1 (amended): for every frequency and every duration `d ≥ 0`, the sample
buffer produced by `Wave.generate_wave` has length `int(sample_rate * d)`
(truncation = floor), in the basic sine variant (honors1) and in the
additive-decay variant (honors2).  The claimed length `round(sample_rate*d)`
is refuted by `claim_C1_cex`. -/
theorem claim_C1 (a f g : ℝ) (d : ℚ) (h : 0 ≤ d) :
    ((H1.generateWave a f d).length : ℤ) = ⌊(SAMPLERATE : ℚ) * d⌋ ∧
    ((H2.generateWave g d).length : ℤ) = ⌊(SAMPLERATE : ℚ) * d⌋ := by
  have hnn : (0 : ℤ) ≤ ⌊(SAMPLERATE : ℚ) * d⌋ :=
    Int.floor_nonneg.mpr (mul_nonneg (by positivity) h)
  constructor
  · rw [length_generateWave1, numSamples, Int.toNat_of_nonneg hnn]
  · rw [length_generateWave2, numSamples, Int.toNat_of_nonneg hnn]

/-- C1 witness: at duration 1 second both engines produce 44100 samples. -/
theorem claim_C1_witness :
    (0 : ℚ) ≤ 1 ∧ ((H1.generateWave 4096 262 1).length : ℤ) = 44100 ∧
      ((H2.generateWave 262 1).length : ℤ) = 44100 := by
  have h := claim_C1 4096 262 262 1 (by norm_num)
  have hf : ⌊(SAMPLERATE : ℚ) * 1⌋ = 44100 := by
    norm_num [SAMPLERATE]
  exact ⟨by norm_num, h.1.trans hf, h.2.trans hf⟩

/-- C1 counterexample: at duration `1/16384` (whose sample count
`44100/16384 ≈ 2.69` rounds to 3), both generators return 2 samples, not
`round(sample_rate * d) = 3`: the code truncates with `int(...)`. -/
theorem claim_C1_cex :
    ((H1.generateWave 4096 262 (1/16384)).length : ℤ)
        ≠ round ((SAMPLERATE : ℚ) * (1/16384)) ∧
    ((H2.generateWave 262 (1/16384)).length : ℤ)
        ≠ round ((SAMPLERATE : ℚ) * (1/16384)) := by
  have hn : numSamples (1/16384) = 2 := numSamples_val _ _ (by norm_num) (by norm_num)
  have hround : round ((SAMPLERATE : ℚ) * (1/16384)) = 3 := by
    norm_num [SAMPLERATE, round_eq, Int.floor_eq_iff]
  constructor
  · rw [length_generateWave1, hn, hround]
    decide
  · rw [length_generateWave2, hn, hround]
    decide

/-- C5: waveform addition (`Wave.__add__`, both engines) produces a buffer
of length `max(len a, len b)` whose sample at index `i` is the sum of the
operands' samples at `i` (0 beyond an operand's end), and its sample data is
commutative (exactly, in the real-number model). -/
theorem claim_C5 (u v : H1.Wave) (p q : H2.Wave) (x y : List ℝ) (i : ℕ) :
    (H1.waveAdd u v).data = addData u.data v.data ∧
    (H2.waveAdd p q).data = addData p.data q.data ∧
    (addData x y).length = max x.length y.length ∧
    getZ (addData x y) i = getZ x i + getZ y i ∧
    addData x y = addData y x :=
  ⟨rfl, rfl, length_addData x y, getZ_addData x y i, addData_comm x y⟩

lemma calcFrequency_some (p : Char) (o : ℤ) :
    calcFrequency (some p) o
      = 262 * (2 : ℝ) ^ ((pitchStep p : ℝ) / 12) * (2 : ℝ) ^ (o - 4) := rfl

lemma except_ok_of_isOk {ε α : Type} {e : Except ε α} (h : e.isOk = true) :
    ∃ a, e = .ok a := by
  cases e with
  | error err => simp [Except.isOk, Except.toBool] at h
  | ok a => exact ⟨a, rfl⟩

/-- C9: `calculate_frequency` computes `262 * 2^(pitch_class/12) *
2^(octave-4)` for every tabulated pitch class; `calculate_frequency('C', 4)`
is exactly 262; raising the octave by one doubles the frequency. -/
theorem claim_C9 :
    (∀ (p : Char) (v : ℕ), dictGet PITCH_CLASSES p = some v → ∀ o : ℤ,
      calcFrequency (some p) o
        = 262 * (2 : ℝ) ^ ((v : ℝ) / 12) * (2 : ℝ) ^ (o - 4)) ∧
    calcFrequency (some 'C') 4 = 262 ∧
    (∀ (p : Char) (o : ℤ),
      calcFrequency (some p) (o + 1) = 2 * calcFrequency (some p) o) := by
  refine ⟨?_, ?_, ?_⟩
  · intro p v h o
    rw [calcFrequency_some]
    unfold pitchStep
    rw [h]
    rfl
  · rw [calcFrequency_some]
    rw [show pitchStep 'C' = 0 from rfl]
    norm_num
  · intro p o
    rw [calcFrequency_some, calcFrequency_some]
    rw [show o + 1 - 4 = (o - 4) + 1 from by ring, zpow_add_one₀ (by norm_num : (2:ℝ) ≠ 0)]
    ring

/-- C9 witness: the pitch class of A is 9 and its frequency formula holds
at octave 4. -/
theorem claim_C9_witness :
    dictGet PITCH_CLASSES 'A' = some 9 ∧
    calcFrequency (some 'A') 4
      = 262 * (2 : ℝ) ^ (((9 : ℕ) : ℝ) / 12) * (2 : ℝ) ^ ((4 : ℤ) - 4) := by
  have h : dictGet PITCH_CLASSES 'A' = some 9 := rfl
  exact ⟨h, claim_C9.1 'A' 9 h 4⟩

lemma buildNote_ok (pitch : Option Char) (octave : ℤ) (symbol tempoName : String)
    (h1 : dictGet TEMPOS tempoName ≠ none) (h2 : dictGet DURATION_MAP symbol ≠ none) :
    (∃ n1, buildNote1 pitch octave symbol tempoName = .ok n1) ∧
    (∃ n2, buildNote2 pitch octave symbol tempoName = .ok n2) := by
  cases hT : dictGet TEMPOS tempoName with
  | none => exact absurd hT h1
  | some bpm =>
    cases hD : dictGet DURATION_MAP symbol with
    | none => exact absurd hD h2
    | some fraction =>
      refine ⟨except_ok_of_isOk ?_, except_ok_of_isOk ?_⟩
      · unfold buildNote1
        rw [hT, hD]
        rfl
      · unfold buildNote2
        rw [hT, hD]
        rfl

/-- C7: a tempo name missing from `TEMPOS` makes `Note` construction fail
with the `UnknownTempo` error (the `KeyError` on `TEMPOS[tempo]`, raised
before anything else happens); a known tempo with a duration symbol missing
from `DURATION_MAP` fails with `UnknownDurationSymbol`; with both present,
construction raises neither error (in both engines). -/
theorem claim_C7 (pitch : Option Char) (octave : ℤ) (symbol tempoName : String) :
    (dictGet TEMPOS tempoName = none →
      buildNote1 pitch octave symbol tempoName = .error .unknownTempo ∧
      buildNote2 pitch octave symbol tempoName = .error .unknownTempo) ∧
    (dictGet TEMPOS tempoName ≠ none → dictGet DURATION_MAP symbol = none →
      buildNote1 pitch octave symbol tempoName = .error .unknownDurationSymbol ∧
      buildNote2 pitch octave symbol tempoName = .error .unknownDurationSymbol) ∧
    (dictGet TEMPOS tempoName ≠ none → dictGet DURATION_MAP symbol ≠ none →
      (∃ n1, buildNote1 pitch octave symbol tempoName = .ok n1) ∧
      (∃ n2, buildNote2 pitch octave symbol tempoName = .ok n2)) := by
  refine ⟨?_, ?_, fun h1 h2 => buildNote_ok pitch octave symbol tempoName h1 h2⟩
  · intro h
    constructor
    · unfold buildNote1; rw [h]
    · unfold buildNote2; rw [h]
  · intro h1 h2
    cases hT : dictGet TEMPOS tempoName with
    | none => exact absurd hT h1
    | some bpm =>
      constructor
      · unfold buildNote1; rw [hT, h2]
      · unfold buildNote2; rw [hT, h2]

/-- C7 witness: concrete instances — the unknown tempo name "Foo" fails with
`unknownTempo`, the unknown duration symbol "ZZ" fails with
`unknownDurationSymbol`, and `C4,QN` at tempo Adagio constructs fine. -/
theorem claim_C7_witness :
    dictGet TEMPOS "Foo" = none ∧
    buildNote1 (some 'C') 4 "QN" "Foo" = .error .unknownTempo ∧
    buildNote2 (some 'C') 4 "QN" "Foo" = .error .unknownTempo ∧
    dictGet DURATION_MAP "ZZ" = none ∧
    buildNote1 (some 'C') 4 "ZZ" "Adagio" = .error .unknownDurationSymbol ∧
    buildNote2 (some 'C') 4 "ZZ" "Adagio" = .error .unknownDurationSymbol ∧
    (∃ n1, buildNote1 (some 'C') 4 "QN" "Adagio" = .ok n1) ∧
    (∃ n2, buildNote2 (some 'C') 4 "QN" "Adagio" = .ok n2) := by
  have hFoo : dictGet TEMPOS "Foo" = none := rfl
  have hZZ : dictGet DURATION_MAP "ZZ" = none := rfl
  have hAdagio : dictGet TEMPOS "Adagio" ≠ none := by
    rw [show dictGet TEMPOS "Adagio" = some 60 from rfl]
    simp
  have hQN : dictGet DURATION_MAP "QN" ≠ none := by
    rw [show dictGet DURATION_MAP "QN" = some 1 from rfl]
    simp
  have e1 := (claim_C7 (some 'C') 4 "QN" "Foo").1 hFoo
  have e2 := (claim_C7 (some 'C') 4 "ZZ" "Adagio").2.1 hAdagio hZZ
  have e3 := (claim_C7 (some 'C') 4 "QN" "Adagio").2.2 hAdagio hQN
  exact ⟨hFoo, e1.1, e1.2, hZZ, e2.1, e2.2, e3.1, e3.2⟩

/-- C8 (amended): a non-empty pitch character outside the 12 tabulated
classes is NOT rejected: `PITCH_CLASSES.get(pitch, 0)` silently defaults its
pitch class to 0, so the note gets the frequency of C in the same octave and
construction succeeds (given valid tempo and duration symbol), in both
engines.  The claimed rejection is refuted by `claim_C8_cex`. -/
theorem claim_C8 (p : Char) (hp : dictGet PITCH_CLASSES p = none) :
    (∀ o : ℤ, calcFrequency (some p) o = calcFrequency (some 'C') o) ∧
    (∀ (o : ℤ) (symbol tempoName : String),
      dictGet TEMPOS tempoName ≠ none → dictGet DURATION_MAP symbol ≠ none →
      (∃ n1, buildNote1 (some p) o symbol tempoName = .ok n1) ∧
      (∃ n2, buildNote2 (some p) o symbol tempoName = .ok n2)) := by
  constructor
  · intro o
    rw [calcFrequency_some, calcFrequency_some]
    unfold pitchStep
    rw [hp, show dictGet PITCH_CLASSES 'C' = some 0 from rfl]
    rfl
  · intro o symbol tempoName h1 h2
    exact buildNote_ok (some p) o symbol tempoName h1 h2

/-- C8 witness: the unknown pitch character X is accepted with the frequency
of C. -/
theorem claim_C8_witness :
    dictGet PITCH_CLASSES 'X' = none ∧
    calcFrequency (some 'X') 4 = calcFrequency (some 'C') 4 ∧
    (∃ n2, buildNote2 (some 'X') 4 "QN" "Adagio" = .ok n2) := by
  have hp : dictGet PITCH_CLASSES 'X' = none := rfl
  refine ⟨hp, (claim_C8 'X' hp).1 4, ?_⟩
  refine ((claim_C8 'X' hp).2 4 "QN" "Adagio" ?_ ?_).2
  · rw [show dictGet TEMPOS "Adagio" = some 60 from rfl]
    simp
  · rw [show dictGet DURATION_MAP "QN" = some 1 from rfl]
    simp

/-- C8 counterexample: `Note` construction with the non-tabulated pitch
character X succeeds in both engines (no error is raised), and the frequency
silently defaults to that of C — refuting the claimed rejection. -/
theorem claim_C8_cex :
    (buildNote1 (some 'X') 4 "QN" "Adagio").isOk = true ∧
    (buildNote2 (some 'X') 4 "QN" "Adagio").isOk = true ∧
    calcFrequency (some 'X') 4 = calcFrequency (some 'C') 4 := by
  refine ⟨rfl, rfl, rfl⟩

lemma totalDur_append (a b : List Note2) :
    totalDur (a ++ b) = totalDur a + totalDur b := by
  simp [totalDur]

lemma totalDur_take_mono {ns : List Note2} (hd : ∀ n ∈ ns, 0 ≤ n.duration)
    {j k : ℕ} (hjk : j ≤ k) : totalDur (ns.take j) ≤ totalDur (ns.take k) := by
  have hsplit : ns.take j ++ (ns.take k).drop j = ns.take k := by
    have h1 : (ns.take k).take j = ns.take j := by
      rw [List.take_take, Nat.min_eq_left hjk]
    rw [← h1, List.take_append_drop]
  have hnn : 0 ≤ totalDur ((ns.take k).drop j) :=
    totalDur_nonneg (fun n hn =>
      hd n (List.take_subset k ns (List.drop_subset j (ns.take k) hn)))
  calc totalDur (ns.take j)
      ≤ totalDur (ns.take j) + totalDur ((ns.take k).drop j) := by linarith
    _ = totalDur (ns.take j ++ (ns.take k).drop j) := (totalDur_append _ _).symm
    _ = totalDur (ns.take k) := by rw [hsplit]

lemma totalDur_take_succ (ns : List Note2) (k : ℕ) (hk : k < ns.length) :
    totalDur (ns.take (k + 1))
      = totalDur (ns.take k) + (ns.get ⟨k, hk⟩).duration := by
  rw [List.take_succ, List.getElem?_eq_getElem hk, totalDur_append]
  simp [totalDur]

lemma startsLeft_eq (ns : List Note2) (k : ℕ) (hk : k < ns.length) :
    (((ns.foldl addNoteLeft emptyPiano2).notesLeft).map (fun e => e.2)).getD k 0
      = totalDur (ns.take k) := by
  rw [(foldl_addNoteLeft ns emptyPiano2).1]
  simp only [emptyPiano2, List.nil_append]
  rw [placeSeq_start ns 0 k hk, zero_add]

lemma startsRight_eq (ns : List Note2) (k : ℕ) (hk : k < ns.length) :
    (((ns.foldl addNoteRight emptyPiano2).notesRight).map (fun e => e.2)).getD k 0
      = totalDur (ns.take k) := by
  rw [(foldl_addNoteRight ns emptyPiano2).1]
  simp only [emptyPiano2, List.nil_append]
  rw [placeSeq_start ns 0 k hk, zero_add]

/-- C4: adding notes of durations `d1..dn` to one voice records note `k` at
start time `d1+...+d(k-1)` and leaves the voice clock at the total duration
(both for `add_note_left` and `add_note_right`); with non-negative durations
the start times are non-negative and monotone, and consecutive notes are
exactly back-to-back (`start(k+1) = start(k) + duration(k)`), so notes of
one voice never overlap. -/
theorem claim_C4 (ns : List Note2) :
    ((ns.foldl addNoteLeft emptyPiano2).timeLeft = totalDur ns ∧
     (ns.foldl addNoteRight emptyPiano2).timeRight = totalDur ns) ∧
    (∀ k, k < ns.length →
      ((ns.foldl addNoteLeft emptyPiano2).notesLeft.map (fun e => e.2)).getD k 0
          = totalDur (ns.take k) ∧
      ((ns.foldl addNoteRight emptyPiano2).notesRight.map (fun e => e.2)).getD k 0
          = totalDur (ns.take k)) ∧
    ((∀ n ∈ ns, 0 ≤ n.duration) → ∀ j k : ℕ, j ≤ k → k < ns.length →
      0 ≤ ((ns.foldl addNoteLeft emptyPiano2).notesLeft.map (fun e => e.2)).getD j 0 ∧
      ((ns.foldl addNoteLeft emptyPiano2).notesLeft.map (fun e => e.2)).getD j 0
        ≤ ((ns.foldl addNoteLeft emptyPiano2).notesLeft.map (fun e => e.2)).getD k 0) ∧
    (∀ (k : ℕ) (hk : k + 1 < ns.length),
      ((ns.foldl addNoteLeft emptyPiano2).notesLeft.map (fun e => e.2)).getD (k + 1) 0
        = ((ns.foldl addNoteLeft emptyPiano2).notesLeft.map (fun e => e.2)).getD k 0
          + (ns.get ⟨k, Nat.lt_of_succ_lt hk⟩).duration) := by
  refine ⟨⟨?_, ?_⟩, ?_, ?_, ?_⟩
  · rw [(foldl_addNoteLeft ns emptyPiano2).2.1]
    simp [emptyPiano2]
  · rw [(foldl_addNoteRight ns emptyPiano2).2.1]
    simp [emptyPiano2]
  · intro k hk
    exact ⟨startsLeft_eq ns k hk, startsRight_eq ns k hk⟩
  · intro hd j k hjk hk
    have hj : j < ns.length := lt_of_le_of_lt hjk hk
    rw [startsLeft_eq ns j hj, startsLeft_eq ns k hk]
    exact ⟨totalDur_nonneg (fun n hn => hd n (List.take_subset j ns hn)),
      totalDur_take_mono hd hjk⟩
  · intro k hk
    rw [startsLeft_eq ns (k + 1) hk, startsLeft_eq ns k (Nat.lt_of_succ_lt hk),
      totalDur_take_succ ns k (Nat.lt_of_succ_lt hk)]

/-- C4 witness: two rest notes of durations 1 and 2 — the clock ends at 3,
note 1 starts at time 1, starts are monotone, and the notes are
back-to-back. -/
theorem claim_C4_witness :
    (∀ n ∈ [restNote 1, restNote 2], 0 ≤ n.duration) ∧
    ([restNote 1, restNote 2].foldl addNoteLeft emptyPiano2).timeLeft = 3 ∧
    (([restNote 1, restNote 2].foldl addNoteLeft emptyPiano2).notesLeft.map
        (fun e => e.2)).getD 1 0 = 1 ∧
    (([restNote 1, restNote 2].foldl addNoteLeft emptyPiano2).notesLeft.map
        (fun e => e.2)).getD 0 0
      ≤ (([restNote 1, restNote 2].foldl addNoteLeft emptyPiano2).notesLeft.map
        (fun e => e.2)).getD 1 0 := by
  have hd : ∀ n ∈ [restNote 1, restNote 2], 0 ≤ n.duration := by
    intro n hn
    rcases List.mem_cons.mp hn with rfl | hn2
    · norm_num [restNote]
    · rw [List.mem_singleton] at hn2
      subst hn2
      norm_num [restNote]
  have h := claim_C4 [restNote 1, restNote 2]
  refine ⟨hd, ?_, ?_, ?_⟩
  · rw [h.1.1]
    norm_num [totalDur, restNote]
  · rw [(h.2.1 1 (by norm_num)).1]
    norm_num [totalDur, restNote]
  · exact (h.2.2.1 hd 0 1 (by norm_num) (by norm_num)).2

/-- C10: honors1 `Piano.get_combined_wave` returns the exact concatenation
of the notes' sample buffers in insertion order (`add_note` appends): the
length is the sum of the individual lengths and note `k`'s samples sit at
the contiguous range starting at the sum of the lengths of notes `0..k-1`,
with no gap or overlap. -/
theorem claim_C10 (notes : List Note1) :
    notes.foldl addNote1 [] = notes ∧
    getCombinedWave notes = some ((notes.map (fun n => n.wave.data)).flatten) ∧
    ((notes.map (fun n => n.wave.data)).flatten).length
      = (notes.map (fun n => n.wave.data.length)).sum ∧
    (∀ (k : ℕ) (hk : k < notes.length) (j : ℕ),
      j < (notes.get ⟨k, hk⟩).wave.data.length →
      getZ ((notes.map (fun n => n.wave.data)).flatten)
          (((notes.take k).map (fun n => n.wave.data.length)).sum + j)
        = getZ (notes.get ⟨k, hk⟩).wave.data j) := by
  refine ⟨foldl_addNote1 notes [], getCombinedWave_join notes, ?_, ?_⟩
  · rw [List.length_flatten, List.map_map]
    rfl
  · intro k hk j hj
    have hk2 : k < (notes.map (fun n => n.wave.data)).length := by simpa using hk
    have hget : (notes.map (fun n => n.wave.data)).get ⟨k, hk2⟩
        = (notes.get ⟨k, hk⟩).wave.data := by
      rw [List.get_eq_getElem, List.get_eq_getElem, List.getElem_map]
    have hoff : (((notes.map (fun n => n.wave.data)).take k).map List.length).sum
        = ((notes.take k).map (fun n => n.wave.data.length)).sum := by
      rw [← List.map_take, List.map_map]
      rfl
    have := join_getZ (notes.map (fun n => n.wave.data)) k hk2 j (by rw [hget]; exact hj)
    rw [hoff, hget] at this
    exact this

/-- C10 witness: two notes with buffers `[1,2]` and `[3]` concatenate to
`[1,2,3]`, and note 1's first sample sits at offset 2. -/
theorem claim_C10_witness :
    getCombinedWave [wNote1, wNote2] = some [(1 : ℝ), 2, 3] ∧
    getZ ((([wNote1, wNote2] : List Note1).map (fun n => n.wave.data)).flatten)
        ((([wNote1, wNote2].take 1).map (fun n => n.wave.data.length)).sum + 0) = 3 := by
  have h := claim_C10 [wNote1, wNote2]
  constructor
  · rw [h.2.1]
    norm_num [wNote1, wNote2]
  · have h4 := h.2.2.2 1 (by norm_num) 0 (by norm_num [wNote2])
    rw [h4]
    norm_num [wNote2, getZ]

lemma combineStep_eq (fw : H2.Wave) (cur : ℚ) (note : Note2) (start : ℚ) :
    combineStep (fw, cur) (note, start)
      = (match setSlice
          (List.replicate (H2.waveAdd fw ⟨0, max 0 (start - cur),
            List.replicate (numSamples (max 0 (start - cur))) 0⟩).data.length 0)
          (numSamples start) note.wave.data with
        | none => none
        | some ext =>
            some (H2.waveAdd
              (H2.waveAdd fw ⟨0, max 0 (start - cur),
                List.replicate (numSamples (max 0 (start - cur))) 0⟩)
              ⟨note.frequency, note.duration, ext⟩, start + note.duration)) := rfl

lemma combineStep_fits (fw : H2.Wave) (cur : ℚ) (note : Note2) (start : ℚ)
    (hfit : numSamples start + note.wave.data.length
      ≤ (H2.waveAdd fw ⟨0, max 0 (start - cur),
          List.replicate (numSamples (max 0 (start - cur))) 0⟩).data.length) :
    ∃ res, combineStep (fw, cur) (note, start) = some res := by
  have hset := setSlice_some
    (List.replicate (H2.waveAdd fw ⟨0, max 0 (start - cur),
      List.replicate (numSamples (max 0 (start - cur))) 0⟩).data.length 0)
    (numSamples start) note.wave.data
    (Or.inr (by rw [List.length_replicate]; exact hfit))
  refine Option.isSome_iff_exists.mp ?_
  rw [combineStep_eq, hset]
  rfl

lemma combineStep_short (fw : H2.Wave) (cur : ℚ) (note : Note2) (start : ℚ)
    (h : note.wave.data.length ≤ 1) :
    ∃ res, combineStep (fw, cur) (note, start) = some res := by
  have hset := setSlice_some
    (List.replicate (H2.waveAdd fw ⟨0, max 0 (start - cur),
      List.replicate (numSamples (max 0 (start - cur))) 0⟩).data.length 0)
    (numSamples start) note.wave.data (Or.inl h)
  refine Option.isSome_iff_exists.mp ?_
  rw [combineStep_eq, hset]
  rfl

lemma combineStep_overrun (fw : H2.Wave) (cur : ℚ) (note : Note2) (start : ℚ)
    (h1 : 2 ≤ note.wave.data.length)
    (h2 : (H2.waveAdd fw ⟨0, max 0 (start - cur),
        List.replicate (numSamples (max 0 (start - cur))) 0⟩).data.length
      < numSamples start + note.wave.data.length) :
    combineStep (fw, cur) (note, start) = none := by
  have hset := setSlice_none
    (List.replicate (H2.waveAdd fw ⟨0, max 0 (start - cur),
      List.replicate (numSamples (max 0 (start - cur))) 0⟩).data.length 0)
    (numSamples start) note.wave.data
    h1 (by rw [List.length_replicate]; exact h2)
  rw [combineStep_eq, hset]

/-- C6 (amended): in honors2 `Piano.combine_notes`, a `(note, start_time)`
placement whose index range fits inside the accumulator (after the silence
padding) completes; a note buffer of at most one sample also always
completes, since numpy broadcasts a size-0 or size-1 source into any clipped
slice (a one-sample note placed at or past the end is silently dropped — the
only case where the claimed truncation actually happens); but a placement of
a note buffer of two or more samples whose range extends past the end of the
accumulator is NOT truncated: the numpy slice assignment fails with a
broadcast error.  The claimed truncation-without-error is refuted by
`claim_C6_cex`. -/
theorem claim_C6 (fw : H2.Wave) (cur : ℚ) (note : Note2) (start : ℚ)
    (_hs : 0 ≤ start) :
    (numSamples start + note.wave.data.length
        ≤ (H2.waveAdd fw ⟨0, max 0 (start - cur),
            List.replicate (numSamples (max 0 (start - cur))) 0⟩).data.length →
      ∃ res, combineStep (fw, cur) (note, start) = some res) ∧
    (note.wave.data.length ≤ 1 →
      ∃ res, combineStep (fw, cur) (note, start) = some res) ∧
    (2 ≤ note.wave.data.length →
      (H2.waveAdd fw ⟨0, max 0 (start - cur),
          List.replicate (numSamples (max 0 (start - cur))) 0⟩).data.length
        < numSamples start + note.wave.data.length →
      combineStep (fw, cur) (note, start) = none) :=
  ⟨fun hfit => combineStep_fits fw cur note start hfit,
   fun h => combineStep_short fw cur note start h,
   fun h1 h2 => combineStep_overrun fw cur note start h1 h2⟩

/-- C6 witness: on an empty accumulator, placing an empty rest fits and
completes, placing a one-sample rest overruns but still completes silently
(broadcast of a size-1 source into the empty clipped slice), and placing a
two-sample rest overruns and errors out. -/
theorem claim_C6_witness :
    (0 : ℚ) ≤ 0 ∧
    (∃ res, combineStep ((⟨0, 0, []⟩ : H2.Wave), 0) (restNote 0, 0) = some res) ∧
    (∃ res, combineStep ((⟨0, 0, []⟩ : H2.Wave), 0) (restNote (1/44100), 0)
      = some res) ∧
    combineStep ((⟨0, 0, []⟩ : H2.Wave), 0) (restNote (1/22050), 0) = none := by
  have hz : numSamples (0 : ℚ) = 0 := numSamples_zero
  have hone : numSamples (1/44100 : ℚ) = 1 := numSamples_val _ _ (by norm_num) (by norm_num)
  have htwo : numSamples (1/22050 : ℚ) = 2 := numSamples_val _ _ (by norm_num) (by norm_num)
  have hlen0 : (restNote 0).wave.data.length = 0 := by
    rw [show (restNote 0).wave.data = H2.generateWave 0 0 from rfl,
      length_generateWave2, hz]
  have hlen1 : (restNote (1/44100)).wave.data.length = 1 := by
    rw [show (restNote (1/44100)).wave.data = H2.generateWave 0 (1/44100) from rfl,
      length_generateWave2, hone]
  have hlen2 : (restNote (1/22050)).wave.data.length = 2 := by
    rw [show (restNote (1/22050)).wave.data = H2.generateWave 0 (1/22050) from rfl,
      length_generateWave2, htwo]
  have hmax : max (0:ℚ) (0 - 0) = 0 := by norm_num
  have hB : (H2.waveAdd (⟨0, 0, []⟩ : H2.Wave)
      ⟨0, max 0 ((0:ℚ) - 0), List.replicate (numSamples (max 0 ((0:ℚ) - 0))) 0⟩).data.length
      = 0 := by
    rw [hmax, hz]
    simp [H2.waveAdd, length_addData]
  have h1 := claim_C6 ⟨0, 0, []⟩ 0 (restNote 0) 0 le_rfl
  have h2 := claim_C6 ⟨0, 0, []⟩ 0 (restNote (1/44100)) 0 le_rfl
  have h3 := claim_C6 ⟨0, 0, []⟩ 0 (restNote (1/22050)) 0 le_rfl
  refine ⟨le_rfl, h1.1 ?_, h2.2.1 ?_, h3.2.2 ?_ ?_⟩
  · rw [hlen0, hz]
    exact Nat.zero_le _
  · rw [hlen1]
  · rw [hlen2]
  · rw [hlen2, hz, hB]
    norm_num

/-- C6 counterexample: mixing a three-sample rest into a two-sample
accumulator does not truncate-and-complete — `combine_notes` fails (numpy
broadcast error on a source of two or more samples), refuting the
never-raises claim. -/
theorem claim_C6_cex : combineNotes cexBuf6 [(restNote (1/14700), 0)] = none := by
  have hbuf : cexBuf6.data.length = 2 := by
    simp [cexBuf6]
    exact numSamples_val _ _ (by norm_num) (by norm_num)
  have hnote : (restNote (1/14700)).wave.data.length = 3 := by
    simp [restNote, H2.mkWave, length_generateWave2]
    exact numSamples_val _ _ (by norm_num) (by norm_num)
  have hstep : combineStep (cexBuf6, 0) (restNote (1/14700), 0) = none := by
    apply combineStep_overrun
    · rw [hnote]; norm_num
    · rw [hnote, numSamples_zero]
      have : (H2.waveAdd cexBuf6 ⟨0, max 0 ((0:ℚ) - 0),
          List.replicate (numSamples (max 0 ((0:ℚ) - 0))) 0⟩).data.length = 2 := by
        simp [H2.waveAdd, length_addData, numSamples_zero, hbuf]
      rw [this]
      norm_num
  unfold combineNotes
  rw [List.foldlM_cons, hstep]
  rfl

/-- C3 (amended): for every two-voice honors2 composition with left total
duration `L` and right total duration `R`, `get_combined_wave_array`
succeeds and returns a buffer of length `int(sample_rate * max(L, R))`
(floor, not the claimed round — refuted by `claim_C3_cex`); mixing is by
per-voice superposition, and each voice contributes nothing at or beyond its
own total duration: the left-voice pass leaves every sample at index
`>= int(sample_rate*L)` zero, and the right-voice pass leaves every sample
at index `>= int(sample_rate*R)` unchanged. -/
theorem claim_C3 (nsl nsr : List Note2)
    (hl : ∀ n ∈ nsl, 0 ≤ n.duration ∧ n.wave.data.length = numSamples n.duration)
    (hr : ∀ n ∈ nsr, 0 ≤ n.duration ∧ n.wave.data.length = numSamples n.duration) :
    ∃ w1 w2 : H2.Wave,
      combineNotes
        ⟨0, max (totalDur nsl) (totalDur nsr),
          List.replicate (numSamples (max (totalDur nsl) (totalDur nsr))) 0⟩
        (pianoOf nsl nsr).notesLeft = some w1 ∧
      combineNotes w1 (pianoOf nsl nsr).notesRight = some w2 ∧
      getCombinedWaveArray (pianoOf nsl nsr) = some w2.data ∧
      w2.data.length = numSamples (max (totalDur nsl) (totalDur nsr)) ∧
      (∀ i, numSamples (totalDur nsl) ≤ i → getZ w1.data i = 0) ∧
      (∀ i, numSamples (totalDur nsr) ≤ i → getZ w2.data i = getZ w1.data i) :=
  render_spec nsl nsr hl hr

/-- C3 witness: a one-note left voice (rest of one sample) against an empty
right voice renders to a single-sample buffer with the stated tail
behaviour. -/
theorem claim_C3_witness :
    (∀ n ∈ [restNote (1/44100)], 0 ≤ n.duration ∧
      n.wave.data.length = numSamples n.duration) ∧
    (∃ w1 w2 : H2.Wave,
      combineNotes
        ⟨0, max (totalDur [restNote (1/44100)]) (totalDur []),
          List.replicate
            (numSamples (max (totalDur [restNote (1/44100)]) (totalDur []))) 0⟩
        (pianoOf [restNote (1/44100)] []).notesLeft = some w1 ∧
      combineNotes w1 (pianoOf [restNote (1/44100)] []).notesRight = some w2 ∧
      getCombinedWaveArray (pianoOf [restNote (1/44100)] []) = some w2.data ∧
      w2.data.length
        = numSamples (max (totalDur [restNote (1/44100)]) (totalDur [])) ∧
      (∀ i, numSamples (totalDur [restNote (1/44100)]) ≤ i → getZ w1.data i = 0) ∧
      (∀ i, numSamples (totalDur []) ≤ i → getZ w2.data i = getZ w1.data i)) := by
  have hl : ∀ n ∈ [restNote (1/44100)], 0 ≤ n.duration ∧
      n.wave.data.length = numSamples n.duration := by
    intro n hn
    rw [List.mem_singleton] at hn
    subst hn
    refine ⟨by norm_num [restNote], ?_⟩
    rw [show (restNote (1/44100)).wave.data = H2.generateWave 0 (1/44100) from rfl,
      length_generateWave2]
    rfl
  have hr : ∀ n ∈ ([] : List Note2), 0 ≤ n.duration ∧
      n.wave.data.length = numSamples n.duration := by
    intro n hn
    simp at hn
  exact ⟨hl, claim_C3 [restNote (1/44100)] [] hl hr⟩

/-- C3 counterexample: one right-hand note of duration `2/27` seconds (the
SNT beat fraction at tempo Vivace), whose sample count `88200/27 ≈ 3266.67`
rounds to 3267: the rendered buffer has `int(...) = 3266` samples, not
`round(sample_rate * max(L, R)) = 3267`. -/
theorem claim_C3_cex :
    (getCombinedWaveArray (pianoOf [] [restNote (2/27)])).map List.length
      = some 3266 ∧
    (round ((SAMPLERATE : ℚ)
      * max (totalDur []) (totalDur [restNote (2/27)])) : ℤ) = 3267 := by
  have hn : numSamples (2/27 : ℚ) = 3266 := numSamples_val _ _ (by norm_num) (by norm_num)
  have hl : ∀ n ∈ ([] : List Note2), 0 ≤ n.duration ∧
      n.wave.data.length = numSamples n.duration := by
    intro n hn2
    simp at hn2
  have hr : ∀ n ∈ [restNote (2/27)], 0 ≤ n.duration ∧
      n.wave.data.length = numSamples n.duration := by
    intro n hn2
    rw [List.mem_singleton] at hn2
    subst hn2
    refine ⟨by norm_num [restNote], ?_⟩
    rw [show (restNote (2/27)).wave.data = H2.generateWave 0 (2/27) from rfl,
      length_generateWave2]
    rfl
  obtain ⟨w1, w2, _, _, hrender, hlen, _, _⟩ := render_spec [] [restNote (2/27)] hl hr
  have htot : totalDur [restNote (2/27)] = 2/27 := by
    norm_num [totalDur, restNote]
  have htot0 : totalDur ([] : List Note2) = 0 := rfl
  have hmax : max (totalDur ([] : List Note2)) (totalDur [restNote (2/27)]) = 2/27 := by
    rw [htot, htot0]
    norm_num
  constructor
  · rw [hrender]
    show some w2.data.length = some 3266
    rw [hlen, hmax, hn]
  · rw [hmax]
    norm_num [SAMPLERATE, round_eq, Int.floor_eq_iff]

/-- C2 (amended): sample `n` of the honors2 generated waveform equals
`amplitude * exp(-a - b*t_n) * Σ_(k=0..3) weight[k] * sin(2π k f t_n)` with
`t_n = n*d/N` on the linspace grid (`N = int(sample_rate*d)`), which equals
the claimed `n / sample_rate` only when `sample_rate*d` is an integer
(refuted otherwise by `claim_C2_cex`); the `k = 0` term contributes exactly
zero, so the sample equals the sum over harmonics `k = 1..3` only. -/
theorem claim_C2 (f : ℝ) (d : ℚ) (n : ℕ) (h : n < numSamples d) :
    getZ (H2.generateWave f d) n
      = (AMPLITUDE : ℝ) * H2.envelope ((tGrid d n : ℚ) : ℝ)
        * ∑ i ∈ Finset.range 4,
            H2.factor i * Real.sin (2 * Real.pi * (i : ℝ) * f * ((tGrid d n : ℚ) : ℝ)) ∧
    getZ (H2.generateWave f d) n
      = (AMPLITUDE : ℝ) * H2.envelope ((tGrid d n : ℚ) : ℝ)
        * ∑ i ∈ Finset.Icc 1 3,
            H2.factor i * Real.sin (2 * Real.pi * (i : ℝ) * f * ((tGrid d n : ℚ) : ℝ)) := by
  have hget : getZ (H2.generateWave f d) n = H2.sampleVal f d n := by
    rw [H2.generateWave, getZ_map_range, if_pos h]
  have h1 : H2.sampleVal f d n
      = (AMPLITUDE : ℝ) * H2.envelope ((tGrid d n : ℚ) : ℝ)
        * ∑ i ∈ Finset.range 4,
            H2.factor i * Real.sin (2 * Real.pi * (i : ℝ) * f * ((tGrid d n : ℚ) : ℝ)) := by
    rw [H2.sampleVal, Finset.mul_sum]
    apply Finset.sum_congr rfl
    intro i _
    ring
  have hzero : H2.factor 0 * Real.sin (2 * Real.pi * ((0 : ℕ) : ℝ) * f
      * ((tGrid d n : ℚ) : ℝ)) = 0 := by
    norm_num
  have hsplit : ∑ i ∈ Finset.range 4,
        H2.factor i * Real.sin (2 * Real.pi * (i : ℝ) * f * ((tGrid d n : ℚ) : ℝ))
      = ∑ i ∈ Finset.Icc 1 3,
        H2.factor i * Real.sin (2 * Real.pi * (i : ℝ) * f * ((tGrid d n : ℚ) : ℝ)) := by
    rw [show Finset.range 4 = insert 0 (Finset.Icc 1 3) from by decide,
      Finset.sum_insert (by decide), hzero, zero_add]
  exact ⟨hget.trans h1, hget.trans (h1.trans (by rw [hsplit]))⟩

/-- C2 witness: the one-sample silent waveform at duration `1/44100`
satisfies both forms of the sample formula at `n = 0`. -/
theorem claim_C2_witness :
    0 < numSamples (1/44100) ∧
    (getZ (H2.generateWave 0 (1/44100)) 0
      = (AMPLITUDE : ℝ) * H2.envelope ((tGrid (1/44100) 0 : ℚ) : ℝ)
        * ∑ i ∈ Finset.range 4,
            H2.factor i * Real.sin (2 * Real.pi * (i : ℝ) * 0
              * ((tGrid (1/44100) 0 : ℚ) : ℝ)) ∧
     getZ (H2.generateWave 0 (1/44100)) 0
      = (AMPLITUDE : ℝ) * H2.envelope ((tGrid (1/44100) 0 : ℚ) : ℝ)
        * ∑ i ∈ Finset.Icc 1 3,
            H2.factor i * Real.sin (2 * Real.pi * (i : ℝ) * 0
              * ((tGrid (1/44100) 0 : ℚ) : ℝ))) := by
  have h0 : 0 < numSamples (1/44100) := by
    rw [numSamples_val (1/44100) 1 (by norm_num) (by norm_num)]
    norm_num
  exact ⟨h0, claim_C2 0 (1/44100) 0 h0⟩

/-- C2 counterexample: at frequency 11025 and duration `2/33075` the buffer
has `N = int(44100 * 2/33075) = 2` samples on the compressed linspace grid,
so sample 1 sits at `t = d/2 = 1/33075`, not at the claimed
`1/44100`: the code's sample value (`4096 * env(1/33075) * (w1 - w2) * √3/2`)
differs from the spec formula's value (`4096 * env(1/44100) * (w1 - w3)`). -/
theorem claim_C2_cex :
    getZ (H2.generateWave 11025 (2/33075)) 1 ≠ specSampleAt 11025 1 := by
  have hN : numSamples (2/33075) = 2 := numSamples_val _ _ (by norm_num) (by norm_num)
  have htg : tGrid (2/33075) 1 = 1/33075 := by
    rw [tGrid, hN]
    norm_num
  have hget : getZ (H2.generateWave 11025 (2/33075)) 1
      = H2.sampleVal 11025 (2/33075) 1 := by
    rw [H2.generateWave, getZ_map_range, if_pos (by rw [hN]; norm_num)]
  have hA : (AMPLITUDE : ℝ) = 4096 := by norm_num [AMPLITUDE]
  have hw0 : H2.factor 0 = 0.36046922 := by
    norm_num [H2.factor, H2.OVERTONE_FACTORS]
  have hw1 : H2.factor 1 = 0.50991279 := by
    norm_num [H2.factor, H2.OVERTONE_FACTORS]
  have hw2 : H2.factor 2 = 0.11674297 := by
    norm_num [H2.factor, H2.OVERTONE_FACTORS]
  have hw3 : H2.factor 3 = 0.01287502 := by
    norm_num [H2.factor, H2.OVERTONE_FACTORS]
  have hsin1 : Real.sin (Real.pi - Real.pi/3) = Real.sqrt 3 / 2 := by
    rw [Real.sin_pi_sub, Real.sin_pi_div_three]
  have hsin2 : Real.sin (Real.pi + Real.pi/3) = -(Real.sqrt 3 / 2) := by
    rw [sin_pi_add, Real.sin_pi_div_three]
  have hsin3 : Real.sin (Real.pi + Real.pi/2) = -1 := by
    rw [sin_pi_add, Real.sin_pi_div_two]
  have hL : H2.sampleVal 11025 (2/33075) 1
      = 4096 * H2.envelope (1/33075) * 0.50991279 * (Real.sqrt 3 / 2)
        + 4096 * H2.envelope (1/33075) * 0.11674297 * (-(Real.sqrt 3 / 2)) := by
    rw [H2.sampleVal, Finset.sum_range_succ, Finset.sum_range_succ,
      Finset.sum_range_succ, Finset.sum_range_one, htg]
    push_cast
    rw [show 2 * Real.pi * (0:ℝ) * 11025 * (1/33075) = 0 from by ring,
      show 2 * Real.pi * (1:ℝ) * 11025 * (1/33075) = Real.pi - Real.pi/3 from by ring,
      show 2 * Real.pi * (2:ℝ) * 11025 * (1/33075) = Real.pi + Real.pi/3 from by ring,
      show 2 * Real.pi * (3:ℝ) * 11025 * (1/33075) = 2 * Real.pi from by ring,
      Real.sin_zero, hsin1, hsin2, Real.sin_two_pi, hA, hw0, hw1, hw2, hw3]
    ring
  have hR : specSampleAt 11025 1
      = 4096 * H2.envelope (1/44100) * (0.50991279 - 0.01287502) := by
    rw [specSampleAt, Finset.sum_range_succ, Finset.sum_range_succ,
      Finset.sum_range_succ, Finset.sum_range_one]
    push_cast [SAMPLERATE]
    rw [show 2 * Real.pi * (0:ℝ) * 11025 * (1/44100) = 0 from by ring,
      show 2 * Real.pi * (1:ℝ) * 11025 * (1/44100) = Real.pi/2 from by ring,
      show 2 * Real.pi * (2:ℝ) * 11025 * (1/44100) = Real.pi from by ring,
      show 2 * Real.pi * (3:ℝ) * 11025 * (1/44100) = Real.pi + Real.pi/2 from by ring,
      Real.sin_zero, Real.sin_pi_div_two, Real.sin_pi, hsin3, hA, hw0, hw1, hw2, hw3]
    ring
  have hE : H2.envelope (1/33075) < H2.envelope (1/44100) := by
    unfold H2.envelope
    apply Real.exp_lt_exp.mpr
    norm_num [H2.DECAY_COEFFICIENTS]
  have hE2pos : (0:ℝ) < H2.envelope (1/44100) := by
    unfold H2.envelope
    exact Real.exp_pos _
  have hE1pos : (0:ℝ) < H2.envelope (1/33075) := by
    unfold H2.envelope
    exact Real.exp_pos _
  have hs0 : (0:ℝ) ≤ Real.sqrt 3 := Real.sqrt_nonneg 3
  have hs18 : Real.sqrt 3 < 1.8 := sqrt_three_lt
  rw [hget, hL, hR]
  apply ne_of_lt
  nlinarith [mul_nonneg (sub_nonneg.mpr (le_of_lt hE)) hs0,
    mul_lt_mul_of_pos_left hs18 hE2pos]

end Music
